import Mathlib

/-!
Verification development for the text-to-voice pipeline of this repository
(text normalization and sentence segmentation in `utils`, the speech
generator / playback controller in `AudioEngine`, WAV encoding in `utils`,
the generation flow in `App.handleGenerate`, and the IndexedDB-backed
library store in `Storage`).

Strings are embedded as `List Char`.  Each JavaScript global-regex
`replace` pass of `cleanTextForTTS` is embedded as a left-to-right scan;
scans that are not structurally recursive take a fuel argument that is
instantiated with the length of the input (one character is consumed per
step, so a fuel equal to the length is always sufficient); the fuel-zero
case can only be reached on inputs longer than the fuel and is irrelevant
for the wrappers below.
-/

/-- JavaScript `\s` (and `String.prototype.trim`) whitespace class:
space, tab, LF, VT, FF, CR, NBSP, U+1680, U+2000..U+200A, LS, PS,
U+202F, U+205F, U+3000, BOM. -/
def isWS (c : Char) : Bool :=
  c = ' ' || c = '\t' || c = '\n' || c.toNat = 11 || c.toNat = 12 || c = '\r' ||
  c.toNat = 0xA0 || c.toNat = 0x1680 || (0x2000 ≤ c.toNat && c.toNat ≤ 0x200A) ||
  c.toNat = 0x2028 || c.toNat = 0x2029 || c.toNat = 0x202F || c.toNat = 0x205F ||
  c.toNat = 0x3000 || c.toNat = 0xFEFF

/-- The character class `[#*`'`'`~_]` of the first `replace` of
`cleanTextForTTS` (the backquote is written by code point). -/
def isStripChar (c : Char) : Bool :=
  c = '#' || c = '*' || c.toNat = 96 || c = '~' || c = '_'

/-- The character class `[-•*+]` of the bullet `replace` of `cleanTextForTTS`. -/
def isBullet (c : Char) : Bool :=
  c = '-' || c = '•' || c = '*' || c = '+'

/-- Sentence terminators of `splitIntoSentences`: `[.!?।]` (Western
terminators plus the Bangla danda U+0964). -/
def isTerminator (c : Char) : Bool :=
  c = '.' || c = '!' || c = '?' || c.toNat = 0x964

/-- Characters matched by the JavaScript regex metacharacter `.`
(without the `s` flag): everything except LF, CR, LS, PS. -/
def dotOk (c : Char) : Bool :=
  !(c = '\n' || c = '\r' || c.toNat = 0x2028 || c.toNat = 0x2029)

/-- Head test used to phrase one-character lookahead of a scan. -/
def headIs (p : Char → Bool) : List Char → Bool
  | [] => false
  | c :: _ => p c

/-- Pass 1 of `cleanTextForTTS`: `.replace(/[#*`'`'`~_]/g, '')`. -/
def stage1 (s : List Char) : List Char :=
  s.filter (fun c => !(isStripChar c))

/-- Lazy `.*?\)` tail of the link regex: returns the remainder after the
first `)` reachable through `.`-matching characters, `none` if a
non-`.`-matching character or the end is reached first. -/
def findParen : List Char → Option (List Char)
  | [] => none
  | c :: rest =>
    if c = ')' then some rest
    else if dotOk c then findParen rest
    else none

/-- Matching of `.*?\]\(.*?\)` (the part of `/\[.*?\]\(.*?\)/` after the
opening `[`): backtracking search for the first `](` whose inner lazy
`.*?\)` completes; returns the remainder of the string after the match. -/
def linkTail : List Char → Option (List Char)
  | [] => none
  | c :: rest =>
    if c = ']' && headIs (fun d => d = '(') rest then
      match findParen rest.tail with
      | some r => some r
      | none => linkTail rest
    else if dotOk c then linkTail rest else none

/-- Pass 2 of `cleanTextForTTS`: `.replace(/\[.*?\]\(.*?\)/g, '')`, as a
fueled left-to-right scan (the replacement is empty, so a match is
dropped and scanning resumes after it). -/
def stage2F : Nat → List Char → List Char
  | 0, _ => []
  | _ + 1, [] => []
  | f + 1, c :: rest =>
    if c = '[' then
      match linkTail rest with
      | some r => stage2F f r
      | none => c :: stage2F f rest
    else c :: stage2F f rest

def stage2 (s : List Char) : List Char := stage2F s.length s

/-- Pass 3 of `cleanTextForTTS`: `.replace(/\n{2,}/g, '. ')` — a maximal
run of at least two newlines becomes a period and a space. -/
def stage3F : Nat → List Char → List Char
  | 0, _ => []
  | _ + 1, [] => []
  | f + 1, c :: rest =>
    if c = '\n' && headIs (fun d => d = '\n') rest then
      '.' :: ' ' :: stage3F f (rest.dropWhile (fun d => d = '\n'))
    else c :: stage3F f rest

def stage3 (s : List Char) : List Char := stage3F s.length s

/-- Pass 4 of `cleanTextForTTS`: `.replace(/[-•*+]\s+/g, ', ')` — a bullet
character followed by a maximal whitespace run becomes a comma and a
space. -/
def stage4F : Nat → List Char → List Char
  | 0, _ => []
  | _ + 1, [] => []
  | f + 1, c :: rest =>
    if isBullet c && headIs isWS rest then
      ',' :: ' ' :: stage4F f (rest.dropWhile isWS)
    else c :: stage4F f rest

def stage4 (s : List Char) : List Char := stage4F s.length s

/-- Pass 5 of `cleanTextForTTS`: `.replace(/\s+/g, ' ')` — every maximal
whitespace run becomes a single space. -/
def stage5F : Nat → List Char → List Char
  | 0, _ => []
  | _ + 1, [] => []
  | f + 1, c :: rest =>
    if isWS c then ' ' :: stage5F f (rest.dropWhile isWS)
    else c :: stage5F f rest

def stage5 (s : List Char) : List Char := stage5F s.length s

/-- JavaScript `String.prototype.trim`: drop whitespace from both ends. -/
def trimChars (s : List Char) : List Char :=
  ((s.dropWhile isWS).reverse.dropWhile isWS).reverse

/-- Embedding of `cleanTextForTTS` from `utils`: the five `replace` passes followed by
`trim`, in source order. -/
def cleanTextForTTS (s : List Char) : List Char :=
  trimChars (stage5 (stage4 (stage3 (stage2 (stage1 s)))))

/-- The scan underlying `text.split(/(?<=[.!?।])\s+/)`: split at every
maximal whitespace run whose preceding character is a sentence
terminator.  `prevTerm` records whether the previously consumed character
was a terminator, `acc` is the current piece in reverse. -/
def splitAuxF : Nat → Bool → List Char → List Char → List (List Char)
  | 0, _, acc, rest => [acc.reverse ++ rest]
  | _ + 1, _, acc, [] => [acc.reverse]
  | f + 1, prevTerm, acc, c :: rest =>
    if prevTerm && isWS c then
      acc.reverse :: splitAuxF f false [] (rest.dropWhile isWS)
    else
      splitAuxF f (isTerminator c) (c :: acc) rest

/-- Embedding of `splitIntoSentences` from `utils`:
`text.split(/(?<=[.!?।])\s+/).filter(s => s.trim().length > 0)`. -/
def splitIntoSentences (s : List Char) : List (List Char) :=
  (splitAuxF s.length false [] s).filter (fun p => 0 < (trimChars p).length)

/-- Embedding of `decodeBase64` from `utils`: the browser builtin `atob` (outside this
repository) yields a binary string whose code units are all below 256;
the loop stores `charCodeAt(i)` into a `Uint8Array` (which wraps modulo
256).  The input here is that binary string. -/
def decodeBase64 (binaryString : List Char) : List Nat :=
  binaryString.map (fun c => c.toNat % 256)

/-- JavaScript `String.prototype.includes` (case-sensitive substring test). -/
def hasSubstr (pat : List Char) : List Char → Bool
  | [] => pat.isEmpty
  | c :: rest => pat.isPrefixOf (c :: rest) || hasSubstr pat rest

/-- A JavaScript error value as observed by `generateTTS`: its `message`
string and its optional numeric `status` property. -/
structure JsError where
  message : String
  status : Option Nat
deriving DecidableEq

/-- The quota test of the `catch` block of `generateTTS`:
`error.message?.includes("quota") || error.status === 429`. -/
def quotaSignal (e : JsError) : Bool :=
  hasSubstr ("quota".toList) e.message.toList || e.status == some 429

/-- Outcome of the remote `ai.models.generateContent` call (an external
capability): either a response whose optional inline data is the binary
string decoded from the base64 payload, or a thrown error. -/
inductive RemoteOutcome where
  | success (inlineData : Option (List Char))
  | failure (e : JsError)

/-- Reinterpretation of the byte buffer as `Int16Array`: consecutive byte
pairs little-endian, two's complement. -/
def toInt16 (v : Nat) : Int :=
  if v % 65536 < 32768 then ((v % 65536 : Nat) : Int)
  else ((v % 65536 : Nat) : Int) - 65536

def bytesToInt16LE : List Nat → List Int
  | b0 :: b1 :: rest => toInt16 (b0 + 256 * b1) :: bytesToInt16LE rest
  | _ => []

/-- The `RangeError` thrown by `new Int16Array(buffer)` when the buffer's
byte length is odd (V8 wording); it has no `status` property. -/
def int16ViewError : JsError :=
  { message := "byte length of Int16Array should be a multiple of 2", status := none }

/-- The `try` block of `generateTTS`: a thrown remote error propagates; a
response without inline data throws the no-audio error; otherwise the
base64 payload is decoded to bytes, viewed as 16-bit little-endian
integers (which throws when the byte length is odd) and scaled by
1/32768 into float samples. -/
def generateTTSTry (outcome : RemoteOutcome) : Except JsError (List ℚ) :=
  match outcome with
  | RemoteOutcome.failure e => Except.error e
  | RemoteOutcome.success none =>
    Except.error { message := "No audio data received", status := none }
  | RemoteOutcome.success (some b64) =>
    let bytes := decodeBase64 b64
    if bytes.length % 2 = 0 then
      Except.ok ((bytesToInt16LE bytes).map (fun i : Int => (i : ℚ) / 32768))
    else Except.error int16ViewError

/-- Embedding of `generateTTS` from `AudioEngine`, as a function of the remote call's
outcome: the `catch` block maps any failure carrying the quota signal to
the distinguished `QUOTA_FULL` error and rethrows every other failure. -/
def generateTTS (outcome : RemoteOutcome) : Except JsError (List ℚ) :=
  match generateTTSTry outcome with
  | Except.ok v => Except.ok v
  | Except.error e =>
    if quotaSignal e then Except.error { message := "QUOTA_FULL", status := none }
    else Except.error e

/-- The clamp `Math.max(-1, Math.min(1, s))` of the WAV/MP3 encoders. -/
def clampSample (s : ℚ) : ℚ := max (-1) (min 1 s)

/-- The scaling `s < 0 ? s * 0x8000 : s * 0x7FFF` followed by `DataView.setInt16`'s
conversion to an integer (truncation toward zero).  Samples are float32
values; scaling by 32768 (a power of two) is exact, and scaling by 32767
fits in 39 mantissa bits, so exact rational arithmetic is faithful. -/
def sampleToInt16 (s : ℚ) : Int :=
  if clampSample s < 0 then ⌈clampSample s * 32768⌉ else ⌊clampSample s * 32767⌋

/-- Little-endian bytes of a 16-bit write (`DataView.setUint16`, wrapping
modulo 2^16). -/
def le16 (v : Nat) : List Nat := [v % 65536 % 256, v % 65536 / 256]

/-- Little-endian bytes of a 32-bit write (`DataView.setUint32`, wrapping
modulo 2^32). -/
def le32 (v : Nat) : List Nat :=
  [v % 4294967296 % 256, v % 4294967296 / 256 % 256,
   v % 4294967296 / 65536 % 256, v % 4294967296 / 16777216]

/-- The two little-endian bytes of a 16-bit signed value (two's complement). -/
def int16LE (i : Int) : List Nat :=
  [(i % 65536).toNat % 256, (i % 65536).toNat / 256]

def setUint16LE (buf : List Nat) (off v : Nat) : List Nat :=
  (buf.set off (v % 65536 % 256)).set (off + 1) (v % 65536 / 256)

def setUint32LE (buf : List Nat) (off v : Nat) : List Nat :=
  (((buf.set off (v % 4294967296 % 256)).set (off + 1)
      (v % 4294967296 / 256 % 256)).set (off + 2)
      (v % 4294967296 / 65536 % 256)).set (off + 3) (v % 4294967296 / 16777216)

def setInt16LE (buf : List Nat) (off : Nat) (i : Int) : List Nat :=
  (buf.set off ((i % 65536).toNat % 256)).set (off + 1) ((i % 65536).toNat / 256)

/-- Embedding of `writeString` from `utils`: `setUint8(offset + i, charCodeAt(i))` for
each character. -/
def writeString (buf : List Nat) (off : Nat) : List Char → List Nat
  | [] => buf
  | c :: rest => writeString (buf.set off (c.toNat % 256)) (off + 1) rest

/-- The sample loop of `pcmToWav`: `setInt16(offset, scaled, true)` with
`offset` advancing by two per sample. -/
def writeSamples : List Nat → Nat → List ℚ → List Nat
  | buf, _, [] => buf
  | buf, off, s :: rest => writeSamples (setInt16LE buf off (sampleToInt16 s)) (off + 2) rest

/-- Embedding of `pcmToWav` from `utils`: a zeroed `ArrayBuffer` of 44 + 2·n bytes
written through a `DataView` at the source's offsets, in source order. -/
def pcmToWav (pcmData : List ℚ) (sampleRate : Nat) : List Nat :=
  let b0 := List.replicate (44 + pcmData.length * 2) 0
  let b1 := writeString b0 0 ['R', 'I', 'F', 'F']
  let b2 := setUint32LE b1 4 (36 + pcmData.length * 2)
  let b3 := writeString b2 8 ['W', 'A', 'V', 'E']
  let b4 := writeString b3 12 ['f', 'm', 't', ' ']
  let b5 := setUint32LE b4 16 16
  let b6 := setUint16LE b5 20 1
  let b7 := setUint16LE b6 22 1
  let b8 := setUint32LE b7 24 sampleRate
  let b9 := setUint32LE b8 28 (sampleRate * 2)
  let b10 := setUint16LE b9 32 2
  let b11 := setUint16LE b10 34 16
  let b12 := writeString b11 36 ['d', 'a', 't', 'a']
  let b13 := setUint32LE b12 40 (pcmData.length * 2)
  writeSamples b13 44 pcmData

/-- The byte layout the specification prescribes for the WAV fallback,
written in its words: the tags RIFF / WAVE / fmt-space / data (as their
character codes), total chunk size 36 + 2·n, format-chunk size 16, PCM
format code 1, channel count 1, the sample rate, byte rate = sample rate
× 2, block align 2, bits per sample 16, data-chunk size 2·n, all
little-endian. -/
def wavHeaderSpec (n sampleRate : Nat) : List Nat :=
  [82, 73, 70, 70] ++ le32 (36 + n * 2) ++ [87, 65, 86, 69] ++
  [102, 109, 116, 32] ++ le32 16 ++ le16 1 ++ le16 1 ++ le32 sampleRate ++
  le32 (sampleRate * 2) ++ le16 2 ++ le16 16 ++ [100, 97, 116, 97] ++ le32 (n * 2)

/-- Embedding of `pcmToMp3` from `utils` when the optional compression backend
(`window.lamejs`, an external library) is unavailable: the code warns and
falls back to `pcmToWav`.  The lamejs encoder itself is outside this
repository; the guaranteed in-repository path is the fallback. -/
def pcmToMp3 (pcmData : List ℚ) (sampleRate : Nat) : List Nat :=
  pcmToWav pcmData sampleRate

/-- The enum `AudioMode` from `types.ts` (in the sources): the two
narration modes STUDY and STORY, each bound to a fixed voice. -/
inductive AudioMode where
  | STUDY
  | STORY
deriving DecidableEq

/-- The interface `LibraryItem` from `types.ts`, as persisted by
`Storage`: identifier, title, timestamp, duration in seconds, the encoded
audio payload (the blob, embedded as its byte list), mode and voice. -/
structure LibraryItem where
  id : String
  title : String
  timestamp : Nat
  duration : ℚ
  blob : List Nat
  mode : AudioMode
  voice : String
deriving DecidableEq

/-- Embedding of `saveItem` from `Storage`: IndexedDB `put` on a store with key path
`id` — upsert: overwrite the record with the same key, else insert. -/
def putItem (store : List LibraryItem) (item : LibraryItem) : List LibraryItem :=
  if store.any (fun it => it.id == item.id) then
    store.map (fun it => if it.id == item.id then item else it)
  else store ++ [item]

/-- Embedding of `deleteItem` from `Storage`: IndexedDB `delete` removes the record
with the given key and succeeds whether or not one exists. -/
def deleteItem (store : List LibraryItem) (id : String) : List LibraryItem :=
  store.filter (fun it => !(it.id == id))

/-- A fixed concrete library item used by witnesses. -/
def sampleItem : LibraryItem :=
  { id := "a", title := "t", timestamp := 0, duration := 0,
    blob := [], mode := AudioMode.STUDY, voice := "Kore" }

/-- An `AudioBufferSourceNode` as configured by `playBuffer`: its buffer
and its playback rate. -/
structure Source where
  buffer : List ℚ
  rate : ℚ
deriving DecidableEq

/-- Observable actions on sources, used to count teardowns. -/
inductive AudioEvent where
  | stopped (src : Source)
  | started (src : Source)
deriving DecidableEq

/-- The mutable fields of `AudioEngine` relevant to playback: the single
`currentSource` slot, the `isActuallyPlaying` flag, and whether the
audio context is running (it is suspended by `pause`). -/
structure EngineState where
  currentSource : Option Source
  isActuallyPlaying : Bool
  ctxRunning : Bool
deriving DecidableEq

/-- Embedding of `initContext`: creates the context on first use and resumes it when
suspended; in either case the context is running afterwards. -/
def initContext (st : EngineState) : EngineState := { st with ctxRunning := true }

/-- Embedding of `stop` from `AudioEngine`: if a source is loaded it is stopped (any
"already stopped" exception is swallowed) and the slot is cleared;
`isActuallyPlaying` is cleared unconditionally. -/
def stop (st : EngineState) : EngineState × List AudioEvent :=
  match st.currentSource with
  | some src =>
    ({ st with currentSource := none, isActuallyPlaying := false },
     [AudioEvent.stopped src])
  | none => ({ st with isActuallyPlaying := false }, [])

/-- Embedding of `playBuffer` from `AudioEngine`: `initContext`; `stop`; then a new
source is created with the given buffer and rate, started, and recorded
as current with `isActuallyPlaying` set. -/
def playBuffer (st : EngineState) (buffer : List ℚ) (rate : ℚ) :
    EngineState × List AudioEvent :=
  let st1 := initContext st
  let p := stop st1
  let src : Source := { buffer := buffer, rate := rate }
  ({ p.1 with currentSource := some src, isActuallyPlaying := true },
   p.2 ++ [AudioEvent.started src])

/-- Concrete sources and engine state used by the playback witness. -/
def oldSource : Source := { buffer := [], rate := 1 }

def newSource : Source := { buffer := [0], rate := 2 }

def busyEngine : EngineState :=
  { currentSource := some oldSource, isActuallyPlaying := true, ctxRunning := true }

/-- The per-sentence generation sequence of `handleGenerate`: sentence 0
first, then sentences 1..n−1 strictly in order; the first failure aborts
the whole run. -/
def runGeneration (gen : List Char → Except JsError (List ℚ)) :
    List (List Char) → Except JsError (List (List ℚ))
  | [] => Except.ok []
  | s :: rest =>
    match gen s with
    | Except.error e => Except.error e
    | Except.ok c =>
      match runGeneration gen rest with
      | Except.error e => Except.error e
      | Except.ok cs => Except.ok (c :: cs)

/-- The copy `finalPCM.set(chunk, offset)`: copy a chunk into the buffer starting
at the given offset. -/
def writeAt : List ℚ → Nat → List ℚ → List ℚ
  | buf, _, [] => buf
  | buf, off, x :: rest => writeAt (buf.set off x) (off + 1) rest

/-- The merge loop of `handleGenerate`: each chunk is copied at the
running offset, which advances by the chunk's length. -/
def mergeAll : List ℚ → Nat → List (List ℚ) → List ℚ
  | buf, _, [] => buf
  | buf, off, ch :: rest => mergeAll (writeAt buf off ch) (off + ch.length) rest

/-- The Final Sample Buffer of `handleGenerate`: a zeroed
`Float32Array(totalLength)` with every chunk copied in at its offset. -/
def finalPCM (chunks : List (List ℚ)) : List ℚ :=
  mergeAll (List.replicate ((chunks.map List.length).sum) 0) 0 chunks

/-- A fixed concrete generator used by the concatenation witness. -/
def chunkGen : List Char → Except JsError (List ℚ) :=
  fun t => if t = ['a'] then Except.ok [1] else Except.ok [2, 3]

/-- Embedding of `handleGenerate` from `App`, as a function of the generator and the
persisted store: the empty-input guard, the per-sentence generation run,
and on success the merge, encoding and `saveItem`; on failure the catch
block picks the quota or the generic message and nothing is saved. -/
def handleGenerate (gen : List Char → Except JsError (List ℚ))
    (store : List LibraryItem) (text : List Char) (title : String)
    (mode : AudioMode) (newId : String) (now : Nat) :
    List LibraryItem × Option String :=
  if trimChars text = [] then (store, some ("Please enter some text first."))
  else
    match runGeneration gen (splitIntoSentences text) with
    | Except.error e =>
      (store,
       some (if e.message = "QUOTA_FULL" then ("API Quota Full. Please wait a moment.")
             else ("An error occurred during generation.")))
    | Except.ok chunks =>
      let item : LibraryItem :=
        { id := newId
          title := if title = "" then ("Untitled Audio") else title
          timestamp := now
          duration := ((finalPCM chunks).length : ℚ) / 24000
          blob := pcmToMp3 (finalPCM chunks) 24000
          mode := mode
          voice := if mode = AudioMode.STUDY then ("Kore") else ("Zephyr") }
      (putItem store item, none)

/-! Generic helpers about the scanning primitives. -/

theorem mem_dropWhile_of_mem {α : Type} {p : α → Bool} {c : α} :
    ∀ {l : List α}, c ∈ l → p c = false → c ∈ l.dropWhile p := by
  intro l
  induction l with
  | nil => intro h _; simp at h
  | cons a l ih =>
    intro h hpc
    rw [List.dropWhile_cons]
    cases hpa : p a with
    | true =>
      rw [if_pos rfl]
      rcases List.mem_cons.mp h with rfl | hmem
      · rw [hpa] at hpc; cases hpc
      · exact ih hmem hpc
    | false => simp only [Bool.false_eq_true, if_false]; exact h

theorem head?_dropWhile_false {α : Type} {p : α → Bool} :
    ∀ {l : List α} {c : α}, (l.dropWhile p).head? = some c → p c = false := by
  intro l
  induction l with
  | nil => intro c h; simp [List.dropWhile] at h
  | cons a l ih =>
    intro c h
    rw [List.dropWhile_cons] at h
    cases hpa : p a with
    | true => rw [hpa, if_pos rfl] at h; exact ih h
    | false =>
      rw [hpa] at h; simp only [Bool.false_eq_true, if_false, List.head?_cons] at h
      injection h with h'; subst h'; exact hpa

theorem getLast?_dropWhile {α : Type} (p : α → Bool) :
    ∀ (l : List α), l.dropWhile p = [] ∨ (l.dropWhile p).getLast? = l.getLast? := by
  intro l
  induction l with
  | nil => left; rfl
  | cons a l ih =>
    rw [List.dropWhile_cons]
    cases hpa : p a with
    | false => right; simp only [Bool.false_eq_true, if_false]
    | true =>
      rw [if_pos rfl]
      cases l with
      | nil => left; rfl
      | cons b t =>
        rcases ih with h | h
        · left; exact h
        · right; rw [List.getLast?_cons_cons]; exact h

theorem chain'_dropWhile {α : Type} {R : α → α → Prop} {p : α → Bool} :
    ∀ {l : List α}, List.Chain' R l → List.Chain' R (l.dropWhile p) := by
  intro l
  induction l with
  | nil => intro h; exact h
  | cons a l ih =>
    intro h
    rw [List.dropWhile_cons]
    cases hpa : p a with
    | false => simp only [Bool.false_eq_true, if_false]; exact h
    | true => rw [if_pos rfl]; exact ih ((List.chain'_cons'.mp h).2)

theorem trim_subset (l : List Char) : trimChars l ⊆ l := by
  intro c hc
  unfold trimChars at hc
  rw [List.mem_reverse] at hc
  have hc2 := (List.dropWhile_sublist (l := (l.dropWhile isWS).reverse) isWS).subset hc
  rw [List.mem_reverse] at hc2
  exact (List.dropWhile_sublist isWS).subset hc2

theorem chain'_trim {R : Char → Char → Prop} {l : List Char}
    (h : List.Chain' R l) : List.Chain' R (trimChars l) := by
  unfold trimChars
  have h1 : List.Chain' R (l.dropWhile isWS) := chain'_dropWhile h
  have h2 : List.Chain' (flip R) (l.dropWhile isWS).reverse :=
    List.chain'_reverse.mpr h1
  have h3 : List.Chain' (flip R) ((l.dropWhile isWS).reverse.dropWhile isWS) :=
    chain'_dropWhile h2
  exact List.chain'_reverse.mpr h3

theorem trim_head?_not {l : List Char} {c : Char}
    (h : (trimChars l).head? = some c) : isWS c = false := by
  unfold trimChars at h
  rw [List.head?_reverse] at h
  rcases getLast?_dropWhile isWS (l.dropWhile isWS).reverse with he | he
  · rw [he] at h; cases h
  · rw [he, List.getLast?_reverse] at h
    exact head?_dropWhile_false h

theorem trim_getLast?_not {l : List Char} {c : Char}
    (h : (trimChars l).getLast? = some c) : isWS c = false := by
  unfold trimChars at h
  rw [List.getLast?_reverse] at h
  exact head?_dropWhile_false h

theorem trim_eq_self {l : List Char}
    (h1 : ∀ c, l.head? = some c → isWS c = false)
    (h2 : ∀ c, l.getLast? = some c → isWS c = false) : trimChars l = l := by
  have e1 : l.dropWhile isWS = l := by
    cases l with
    | nil => rfl
    | cons a t =>
      rw [List.dropWhile_cons, h1 a rfl]
      simp
  have e2 : l.reverse.dropWhile isWS = l.reverse := by
    cases hr : l.reverse with
    | nil => rfl
    | cons a t =>
      have ha : l.getLast? = some a := by
        rw [← List.head?_reverse, hr, List.head?_cons]
      rw [List.dropWhile_cons, h2 a ha]
      simp
  unfold trimChars
  rw [e1, e2, List.reverse_reverse]

/-! Lemmas about the five passes of `cleanTextForTTS`. -/

theorem stage1_mem {s : List Char} {c : Char} (h : c ∈ stage1 s) :
    c ∈ s ∧ isStripChar c = false := by
  have h' := List.mem_filter.mp h
  exact ⟨h'.1, by simpa using h'.2⟩

theorem stage1_eq_self {s : List Char} (h : ∀ c ∈ s, isStripChar c = false) :
    stage1 s = s :=
  List.filter_eq_self.mpr (fun c hc => by simp [h c hc])

theorem findParen_subset : ∀ {l r : List Char}, findParen l = some r → r ⊆ l := by
  intro l
  induction l with
  | nil => intro r h; simp [findParen] at h
  | cons c rest ih =>
    intro r h
    simp only [findParen] at h
    split at h
    · injection h with h'; subst h'; exact List.subset_cons_self _ _
    · split at h
      · exact (ih h).trans (List.subset_cons_self _ _)
      · cases h

theorem linkTail_subset : ∀ {l r : List Char}, linkTail l = some r → r ⊆ l := by
  intro l
  induction l with
  | nil => intro r h; simp [linkTail] at h
  | cons c rest ih =>
    intro r h
    simp only [linkTail] at h
    split at h
    · split at h
      · next r' hfp =>
        injection h with h'; subst h'
        exact ((findParen_subset hfp).trans (List.tail_subset rest)).trans
          (List.subset_cons_self _ _)
      · exact (ih h).trans (List.subset_cons_self _ _)
    · split at h
      · exact (ih h).trans (List.subset_cons_self _ _)
      · cases h

theorem stage2F_subset : ∀ (f : Nat) (s : List Char), stage2F f s ⊆ s := by
  intro f
  induction f with
  | zero => intro s x hx; simp [stage2F] at hx
  | succ f ih =>
    intro s
    cases s with
    | nil => intro x hx; simp [stage2F] at hx
    | cons c rest =>
      simp only [stage2F]
      split
      · cases hlt : linkTail rest with
        | some r =>
          exact (ih r).trans ((linkTail_subset hlt).trans (List.subset_cons_self _ _))
        | none => exact List.cons_subset_cons c (ih rest)
      · exact List.cons_subset_cons c (ih rest)

theorem stage2F_eq_self : ∀ (f : Nat) (s : List Char), s.length ≤ f →
    (∀ c ∈ s, c ≠ '[') → stage2F f s = s := by
  intro f
  induction f with
  | zero =>
    intro s hl _
    cases s with
    | nil => rfl
    | cons c rest => simp at hl
  | succ f ih =>
    intro s hl hno
    cases s with
    | nil => rfl
    | cons c rest =>
      have hc : ¬(c = '[') := hno c (List.mem_cons_self c rest)
      simp only [stage2F, if_neg hc]
      have hl' : rest.length ≤ f := by
        simp only [List.length_cons] at hl; omega
      rw [ih rest hl' (fun d hd => hno d (List.mem_cons_of_mem c hd))]

theorem stage3F_mem : ∀ (f : Nat) (s : List Char) (c : Char), c ∈ stage3F f s →
    c ∈ s ∨ c = '.' ∨ c = ' ' := by
  intro f
  induction f with
  | zero => intro s c hc; simp [stage3F] at hc
  | succ f ih =>
    intro s c hc
    cases s with
    | nil => simp [stage3F] at hc
    | cons a rest =>
      simp only [stage3F] at hc
      split at hc
      · rcases List.mem_cons.mp hc with rfl | hc2
        · right; left; rfl
        rcases List.mem_cons.mp hc2 with rfl | hc3
        · right; right; rfl
        rcases ih _ c hc3 with hmem | hd
        · exact Or.inl (List.mem_cons_of_mem a
            ((List.dropWhile_sublist _).subset hmem))
        · exact Or.inr hd
      · rcases List.mem_cons.mp hc with rfl | hc2
        · exact Or.inl (List.mem_cons_self c rest)
        rcases ih _ c hc2 with hmem | hd
        · exact Or.inl (List.mem_cons_of_mem a hmem)
        · exact Or.inr hd

theorem stage3F_eq_self : ∀ (f : Nat) (s : List Char), s.length ≤ f →
    (∀ c ∈ s, c ≠ '\n') → stage3F f s = s := by
  intro f
  induction f with
  | zero =>
    intro s hl _
    cases s with
    | nil => rfl
    | cons c rest => simp at hl
  | succ f ih =>
    intro s hl hno
    cases s with
    | nil => rfl
    | cons a rest =>
      have ha : ¬(a = '\n') := hno a (List.mem_cons_self a rest)
      have hcond : (a = '\n' && headIs (fun d => d = '\n') rest) = false := by
        simp [ha]
      simp only [stage3F, hcond, Bool.false_eq_true, if_false]
      have hl' : rest.length ≤ f := by
        simp only [List.length_cons] at hl; omega
      rw [ih rest hl' (fun d hd => hno d (List.mem_cons_of_mem a hd))]

theorem stage4F_mem : ∀ (f : Nat) (s : List Char) (c : Char), c ∈ stage4F f s →
    c ∈ s ∨ c = ',' ∨ c = ' ' := by
  intro f
  induction f with
  | zero => intro s c hc; simp [stage4F] at hc
  | succ f ih =>
    intro s c hc
    cases s with
    | nil => simp [stage4F] at hc
    | cons a rest =>
      simp only [stage4F] at hc
      split at hc
      · rcases List.mem_cons.mp hc with rfl | hc2
        · right; left; rfl
        rcases List.mem_cons.mp hc2 with rfl | hc3
        · right; right; rfl
        rcases ih _ c hc3 with hmem | hd
        · exact Or.inl (List.mem_cons_of_mem a
            ((List.dropWhile_sublist _).subset hmem))
        · exact Or.inr hd
      · rcases List.mem_cons.mp hc with rfl | hc2
        · exact Or.inl (List.mem_cons_self c rest)
        rcases ih _ c hc2 with hmem | hd
        · exact Or.inl (List.mem_cons_of_mem a hmem)
        · exact Or.inr hd

theorem stage4F_head? : ∀ (f : Nat) (s : List Char) (c : Char),
    (stage4F f s).head? = some c → c = ',' ∨ s.head? = some c := by
  intro f s c h
  cases f with
  | zero => simp [stage4F] at h
  | succ f =>
    cases s with
    | nil => simp [stage4F] at h
    | cons a rest =>
      simp only [stage4F] at h
      split at h
      · rw [List.head?_cons] at h; injection h with h'; exact Or.inl h'.symm
      · rw [List.head?_cons] at h; injection h with h'; subst h'
        exact Or.inr rfl

theorem stage4F_chain' : ∀ (f : Nat) (s : List Char),
    List.Chain' (fun a b => isBullet a = false ∨ isWS b = false) (stage4F f s) := by
  intro f
  induction f with
  | zero => intro s; simp [stage4F]
  | succ f ih =>
    intro s
    cases s with
    | nil => simp [stage4F]
    | cons a rest =>
      simp only [stage4F]
      split
      · refine List.chain'_cons'.mpr ⟨?_, List.chain'_cons'.mpr ⟨?_, ih _⟩⟩
        · intro y _; left; decide
        · intro y _; left; decide
      · next hcond =>
        refine List.chain'_cons'.mpr ⟨?_, ih rest⟩
        intro y hy
        cases hb : isBullet a with
        | false => exact Or.inl rfl
        | true =>
          right
          have hrest : headIs isWS rest = false := by
            cases hw : headIs isWS rest with
            | false => rfl
            | true => rw [hb, hw] at hcond; simp at hcond
          rcases stage4F_head? f rest y hy with rfl | hhead
          · decide
          · cases rest with
            | nil => simp at hhead
            | cons b t =>
              rw [List.head?_cons] at hhead; injection hhead with h'; subst h'
              simpa [headIs] using hrest

theorem stage4F_eq_self : ∀ (f : Nat) (s : List Char), s.length ≤ f →
    List.Chain' (fun a b => isBullet a = false ∨ isWS b = false) s →
    stage4F f s = s := by
  intro f
  induction f with
  | zero =>
    intro s hl _
    cases s with
    | nil => rfl
    | cons c rest => simp at hl
  | succ f ih =>
    intro s hl hch
    cases s with
    | nil => rfl
    | cons a rest =>
      have hcond : (isBullet a && headIs isWS rest) = false := by
        cases hb : isBullet a with
        | false => rfl
        | true =>
          cases rest with
          | nil => rfl
          | cons b t =>
            rcases (List.chain'_cons'.mp hch).1 b rfl with h1 | h2
            · rw [hb] at h1; cases h1
            · simp [headIs, h2]
      simp only [stage4F, hcond, Bool.false_eq_true, if_false]
      have hl' : rest.length ≤ f := by
        simp only [List.length_cons] at hl; omega
      rw [ih rest hl' (List.chain'_cons'.mp hch).2]

theorem stage5F_mem : ∀ (f : Nat) (s : List Char) (c : Char), c ∈ stage5F f s →
    (c ∈ s ∧ isWS c = false) ∨ c = ' ' := by
  intro f
  induction f with
  | zero => intro s c hc; simp [stage5F] at hc
  | succ f ih =>
    intro s c hc
    cases s with
    | nil => simp [stage5F] at hc
    | cons a rest =>
      simp only [stage5F] at hc
      split at hc
      · rcases List.mem_cons.mp hc with rfl | hc2
        · right; rfl
        rcases ih _ c hc2 with ⟨hmem, hws⟩ | hd
        · exact Or.inl ⟨List.mem_cons_of_mem a
            ((List.dropWhile_sublist _).subset hmem), hws⟩
        · exact Or.inr hd
      · next hcond =>
        rcases List.mem_cons.mp hc with rfl | hc2
        · exact Or.inl ⟨List.mem_cons_self c rest, by simpa using hcond⟩
        rcases ih _ c hc2 with ⟨hmem, hws⟩ | hd
        · exact Or.inl ⟨List.mem_cons_of_mem a hmem, hws⟩
        · exact Or.inr hd

theorem stage5F_head? : ∀ (f : Nat) (s : List Char) (c : Char),
    (stage5F f s).head? = some c →
    ∃ d, s.head? = some d ∧ ((isWS d = true ∧ c = ' ') ∨ (isWS d = false ∧ c = d)) := by
  intro f s c h
  cases f with
  | zero => simp [stage5F] at h
  | succ f =>
    cases s with
    | nil => simp [stage5F] at h
    | cons a rest =>
      simp only [stage5F] at h
      split at h
      · next hcond =>
        rw [List.head?_cons] at h; injection h with h'
        exact ⟨a, rfl, Or.inl ⟨hcond, h'.symm⟩⟩
      · next hcond =>
        rw [List.head?_cons] at h; injection h with h'
        exact ⟨a, rfl, Or.inr ⟨by simpa using hcond, h'.symm⟩⟩

theorem stage5F_chain' : ∀ (f : Nat) (s : List Char),
    List.Chain' (fun a b => isWS a = false ∨ isWS b = false) (stage5F f s) := by
  intro f
  induction f with
  | zero => intro s; simp [stage5F]
  | succ f ih =>
    intro s
    cases s with
    | nil => simp [stage5F]
    | cons a rest =>
      simp only [stage5F]
      split
      · refine List.chain'_cons'.mpr ⟨?_, ih _⟩
        intro y hy
        rcases stage5F_head? f _ y hy with ⟨d, hd, hcases⟩
        have hdws : isWS d = false := head?_dropWhile_false hd
        rcases hcases with ⟨h1, _⟩ | ⟨_, rfl⟩
        · rw [hdws] at h1; cases h1
        · exact Or.inr hdws
      · next hcond =>
        refine List.chain'_cons'.mpr ⟨?_, ih rest⟩
        intro y _
        exact Or.inl (by simpa using hcond)

theorem stage5F_chain'_bullet : ∀ (f : Nat) (s : List Char),
    List.Chain' (fun a b => isBullet a = false ∨ isWS b = false) s →
    List.Chain' (fun a b => isBullet a = false ∨ isWS b = false) (stage5F f s) := by
  intro f
  induction f with
  | zero => intro s _; simp [stage5F]
  | succ f ih =>
    intro s hch
    cases s with
    | nil => simp [stage5F]
    | cons a rest =>
      simp only [stage5F]
      split
      · refine List.chain'_cons'.mpr
          ⟨fun y _ => Or.inl (by decide), ih _ (chain'_dropWhile hch.tail)⟩
      · refine List.chain'_cons'.mpr ⟨?_, ih rest (List.chain'_cons'.mp hch).2⟩
        intro y hy
        cases hb : isBullet a with
        | false => exact Or.inl rfl
        | true =>
          right
          rcases stage5F_head? f rest y hy with ⟨d, hd, hcases⟩
          have hR : isBullet a = false ∨ isWS d = false :=
            (List.chain'_cons'.mp hch).1 d hd
          have hdws : isWS d = false := by
            rcases hR with h1 | h2
            · rw [hb] at h1; cases h1
            · exact h2
          rcases hcases with ⟨h1, _⟩ | ⟨_, rfl⟩
          · rw [hdws] at h1; cases h1
          · exact hdws

theorem stage5F_eq_self : ∀ (f : Nat) (s : List Char), s.length ≤ f →
    (∀ c ∈ s, isWS c = true → c = ' ') →
    List.Chain' (fun a b => isWS a = false ∨ isWS b = false) s →
    stage5F f s = s := by
  intro f
  induction f with
  | zero =>
    intro s hl _ _
    cases s with
    | nil => rfl
    | cons c rest => simp at hl
  | succ f ih =>
    intro s hl hsp hch
    cases s with
    | nil => rfl
    | cons a rest =>
      have hl' : rest.length ≤ f := by
        simp only [List.length_cons] at hl; omega
      have hsp' : ∀ c ∈ rest, isWS c = true → c = ' ' :=
        fun c hc => hsp c (List.mem_cons_of_mem a hc)
      have hch' := (List.chain'_cons'.mp hch).2
      simp only [stage5F]
      cases hw : isWS a with
      | false =>
        simp only [Bool.false_eq_true, if_false]
        rw [ih rest hl' hsp' hch']
      | true =>
        rw [if_pos rfl]
        have ha : a = ' ' := hsp a (List.mem_cons_self a rest) hw
        have hdrop : rest.dropWhile isWS = rest := by
          cases rest with
          | nil => rfl
          | cons b t =>
            rcases (List.chain'_cons'.mp hch).1 b rfl with h1 | h2
            · rw [hw] at h1; cases h1
            · rw [List.dropWhile_cons, h2]; simp
        rw [hdrop, ih rest hl' hsp' hch', ha]

theorem clean_mem {s : List Char} {c : Char} (h : c ∈ cleanTextForTTS s) :
    (c ∈ stage1 s ∧ isWS c = false) ∨ c = '.' ∨ c = ',' ∨ c = ' ' := by
  have h5 : c ∈ stage5F (stage4 (stage3 (stage2 (stage1 s)))).length
      (stage4 (stage3 (stage2 (stage1 s)))) := trim_subset _ h
  rcases stage5F_mem _ _ _ h5 with ⟨h4, hws⟩ | rfl
  · rcases stage4F_mem _ _ _ h4 with h3 | hd
    · rcases stage3F_mem _ _ _ h3 with h2 | hd
      · exact Or.inl ⟨stage2F_subset _ _ h2, hws⟩
      · rcases hd with rfl | rfl
        · exact Or.inr (Or.inl rfl)
        · exact Or.inr (Or.inr (Or.inr rfl))
    · rcases hd with rfl | rfl
      · exact Or.inr (Or.inr (Or.inl rfl))
      · exact Or.inr (Or.inr (Or.inr rfl))
  · exact Or.inr (Or.inr (Or.inr rfl))

theorem clean_ws_space {s : List Char} {c : Char} (h : c ∈ cleanTextForTTS s)
    (hws : isWS c = true) : c = ' ' := by
  rcases clean_mem h with ⟨_, h2⟩ | rfl | rfl | rfl
  · rw [hws] at h2; cases h2
  · exact absurd hws (by decide)
  · exact absurd hws (by decide)
  · rfl

theorem clean_no_strip {s : List Char} {c : Char} (h : c ∈ cleanTextForTTS s) :
    isStripChar c = false := by
  rcases clean_mem h with ⟨h1, _⟩ | rfl | rfl | rfl
  · exact (stage1_mem h1).2
  · decide
  · decide
  · decide

theorem clean_no_bracket {s : List Char} (hs : '[' ∉ s) {c : Char}
    (h : c ∈ cleanTextForTTS s) : c ≠ '[' := by
  rcases clean_mem h with ⟨h1, _⟩ | rfl | rfl | rfl
  · exact fun hc => hs (hc ▸ (stage1_mem h1).1)
  · decide
  · decide
  · decide

theorem clean_chain_bullet (s : List Char) :
    List.Chain' (fun a b => isBullet a = false ∨ isWS b = false)
      (cleanTextForTTS s) :=
  chain'_trim (stage5F_chain'_bullet _ _ (stage4F_chain' _ _))

theorem clean_chain_ws (s : List Char) :
    List.Chain' (fun a b => isWS a = false ∨ isWS b = false)
      (cleanTextForTTS s) :=
  chain'_trim (stage5F_chain' _ _)

/-! Lemmas about `splitIntoSentences`. -/

theorem trim_nonempty {p : List Char} {c : Char} (hc : c ∈ p)
    (hws : isWS c = false) : trimChars p ≠ [] := by
  have h1 : c ∈ p.dropWhile isWS := mem_dropWhile_of_mem hc hws
  have h2 : c ∈ (p.dropWhile isWS).reverse := List.mem_reverse.mpr h1
  have h3 : c ∈ (p.dropWhile isWS).reverse.dropWhile isWS :=
    mem_dropWhile_of_mem h2 hws
  exact List.ne_nil_of_mem (List.mem_reverse.mpr h3)

theorem trim_nonempty_mem {p : List Char} (h : trimChars p ≠ []) :
    ∃ c ∈ p, isWS c = false := by
  cases htp : trimChars p with
  | nil => exact absurd htp h
  | cons c t =>
    refine ⟨c, trim_subset p (htp ▸ List.mem_cons_self c t), ?_⟩
    exact trim_head?_not (l := p) (by rw [htp]; rfl)

theorem splitAuxF_exists_nonws :
    ∀ (f : Nat) (b : Bool) (acc rest : List Char),
    (∃ c, (c ∈ acc ∨ c ∈ rest) ∧ isWS c = false) →
    ∃ p ∈ splitAuxF f b acc rest, ∃ c ∈ p, isWS c = false := by
  intro f
  induction f with
  | zero =>
    intro b acc rest ⟨c, hc, hws⟩
    refine ⟨acc.reverse ++ rest, List.mem_cons_self _ _, c, ?_, hws⟩
    rcases hc with h | h
    · exact List.mem_append.mpr (Or.inl (List.mem_reverse.mpr h))
    · exact List.mem_append.mpr (Or.inr h)
  | succ f ih =>
    intro b acc rest ⟨c, hc, hws⟩
    cases rest with
    | nil =>
      rcases hc with h | h
      · exact ⟨acc.reverse, List.mem_cons_self _ _, c, List.mem_reverse.mpr h, hws⟩
      · simp at h
    | cons a rest' =>
      simp only [splitAuxF]
      split
      · next hcond =>
        have hwa : isWS a = true := (Bool.and_eq_true_iff.mp hcond).2
        rcases hc with h | h
        · exact ⟨acc.reverse, List.mem_cons_self _ _, c, List.mem_reverse.mpr h, hws⟩
        · rcases List.mem_cons.mp h with rfl | h2
          · rw [hwa] at hws; cases hws
          · obtain ⟨p, hp, hcp⟩ := ih false [] (rest'.dropWhile isWS)
              ⟨c, Or.inr (mem_dropWhile_of_mem h2 hws), hws⟩
            exact ⟨p, List.mem_cons_of_mem _ hp, hcp⟩
      · rcases hc with h | h
        · exact ih _ (a :: acc) rest' ⟨c, Or.inl (List.mem_cons_of_mem a h), hws⟩
        · rcases List.mem_cons.mp h with rfl | h2
          · exact ih _ (c :: acc) rest' ⟨c, Or.inl (List.mem_cons_self c acc), hws⟩
          · exact ih _ (a :: acc) rest' ⟨c, Or.inr h2, hws⟩

/-! Lemmas about the decoded sample values. -/

theorem toInt16_bounds (v : Nat) : -32768 ≤ toInt16 v ∧ toInt16 v ≤ 32767 := by
  have h1 : v % 65536 < 65536 := Nat.mod_lt _ (by norm_num)
  unfold toInt16
  split <;> omega

theorem bytesToInt16LE_mem : ∀ (bytes : List Nat) (i : Int),
    i ∈ bytesToInt16LE bytes → -32768 ≤ i ∧ i ≤ 32767
  | [], i, h => by simp [bytesToInt16LE] at h
  | [b], i, h => by simp [bytesToInt16LE] at h
  | b0 :: b1 :: rest, i, h => by
    simp only [bytesToInt16LE] at h
    rcases List.mem_cons.mp h with rfl | h2
    · exact toInt16_bounds _
    · exact bytesToInt16LE_mem rest i h2

theorem bytesToInt16LE_length : ∀ (bytes : List Nat),
    (bytesToInt16LE bytes).length = bytes.length / 2
  | [] => rfl
  | [b] => by show ([] : List Int).length = [b].length / 2; simp
  | b0 :: b1 :: rest => by
    simp only [bytesToInt16LE, List.length_cons, bytesToInt16LE_length rest]
    omega

theorem sample_div_bounds {i : Int} (h1 : -32768 ≤ i) (h2 : i ≤ 32767) :
    -1 ≤ (i : ℚ) / 32768 ∧ (i : ℚ) / 32768 ≤ 32767 / 32768 := by
  have hc1 : (-32768 : ℚ) ≤ (i : ℚ) := by exact_mod_cast h1
  have hc2 : (i : ℚ) ≤ 32767 := by exact_mod_cast h2
  constructor
  · rw [show (-1 : ℚ) = -32768 / 32768 by norm_num]
    exact (div_le_div_iff_of_pos_right (by norm_num : (0 : ℚ) < 32768)).mpr hc1
  · exact (div_le_div_iff_of_pos_right (by norm_num : (0 : ℚ) < 32768)).mpr hc2

/-! Lemmas about buffer writes at offsets. -/

theorem set_append_len {α : Type} :
    ∀ (pre : List α) (d : α) (suf : List α) (c : α),
    (pre ++ d :: suf).set pre.length c = pre ++ c :: suf := by
  intro pre
  induction pre with
  | nil => intro d suf c; rfl
  | cons a pre ih =>
    intro d suf c
    simp only [List.cons_append, List.length_cons, List.set_cons_succ]
    rw [ih]

theorem writeAt_append : ∀ (ch : List ℚ) (pre suf : List ℚ),
    ch.length ≤ suf.length →
    writeAt (pre ++ suf) pre.length ch = pre ++ ch ++ suf.drop ch.length := by
  intro ch
  induction ch with
  | nil => intro pre suf _; simp [writeAt]
  | cons x ch ih =>
    intro pre suf hl
    cases suf with
    | nil => simp at hl
    | cons d suf' =>
      simp only [writeAt]
      rw [set_append_len]
      rw [show pre ++ x :: suf' = (pre ++ [x]) ++ suf' by simp]
      rw [show pre.length + 1 = (pre ++ [x]).length by simp]
      rw [ih (pre ++ [x]) suf' (by simpa using hl)]
      simp

theorem mergeAll_append : ∀ (chunks : List (List ℚ)) (pre suf : List ℚ),
    (chunks.map List.length).sum ≤ suf.length →
    mergeAll (pre ++ suf) pre.length chunks =
      pre ++ chunks.flatten ++ suf.drop ((chunks.map List.length).sum) := by
  intro chunks
  induction chunks with
  | nil => intro pre suf _; simp [mergeAll]
  | cons ch chunks ih =>
    intro pre suf hl
    simp only [List.map_cons, List.sum_cons] at hl
    simp only [mergeAll]
    rw [writeAt_append ch pre suf (by omega)]
    rw [show pre ++ ch ++ suf.drop ch.length = (pre ++ ch) ++ suf.drop ch.length by
      simp]
    rw [show pre.length + ch.length = (pre ++ ch).length by simp]
    rw [ih (pre ++ ch) (suf.drop ch.length) (by simp [List.length_drop]; omega)]
    simp [List.flatten_cons, List.drop_drop, Nat.add_comm]

theorem finalPCM_eq_flatten (chunks : List (List ℚ)) :
    finalPCM chunks = chunks.flatten := by
  unfold finalPCM
  have h := mergeAll_append chunks []
    (List.replicate ((chunks.map List.length).sum) 0) (by simp)
  simpa [List.drop_replicate] using h

theorem runGeneration_ok_forall (gen : List Char → Except JsError (List ℚ)) :
    ∀ (sentences : List (List Char)) (chunks : List (List ℚ)),
    runGeneration gen sentences = Except.ok chunks →
    List.Forall₂ (fun s c => gen s = Except.ok c) sentences chunks := by
  intro sentences
  induction sentences with
  | nil =>
    intro chunks h
    simp only [runGeneration] at h
    injection h with h'
    subst h'
    exact List.Forall₂.nil
  | cons s rest ih =>
    intro chunks h
    simp only [runGeneration] at h
    cases hg : gen s with
    | error e => rw [hg] at h; cases h
    | ok c =>
      rw [hg] at h
      cases hr : runGeneration gen rest with
      | error e => rw [hr] at h; cases h
      | ok cs =>
        rw [hr] at h
        injection h with h'
        subst h'
        exact List.Forall₂.cons hg (ih cs hr)

/-! Lemmas about the WAV writer. -/

theorem le16_length (v : Nat) : (le16 v).length = 2 := rfl

theorem le32_length (v : Nat) : (le32 v).length = 4 := rfl

theorem int16LE_length (i : Int) : (int16LE i).length = 2 := rfl

theorem writeString_append : ∀ (str : List Char) (pre suf : List Nat),
    str.length ≤ suf.length →
    writeString (pre ++ suf) pre.length str =
      pre ++ str.map (fun c => c.toNat % 256) ++ suf.drop str.length := by
  intro str
  induction str with
  | nil => intro pre suf _; simp [writeString]
  | cons c str ih =>
    intro pre suf hl
    cases suf with
    | nil => simp at hl
    | cons d suf' =>
      simp only [writeString]
      rw [set_append_len]
      rw [show pre ++ (c.toNat % 256) :: suf' = (pre ++ [c.toNat % 256]) ++ suf' by simp]
      rw [show pre.length + 1 = (pre ++ [c.toNat % 256]).length by simp]
      rw [ih (pre ++ [c.toNat % 256]) suf' (by simpa using hl)]
      simp

theorem setUint16LE_append (pre suf : List Nat) (v : Nat) (h : 2 ≤ suf.length) :
    setUint16LE (pre ++ suf) pre.length v = pre ++ le16 v ++ suf.drop 2 := by
  cases suf with
  | nil => simp at h
  | cons d1 s1 =>
    cases s1 with
    | nil => simp at h
    | cons d2 s2 =>
      unfold setUint16LE le16
      rw [set_append_len]
      rw [show pre ++ (v % 65536 % 256) :: d2 :: s2 =
        (pre ++ [v % 65536 % 256]) ++ d2 :: s2 by simp]
      rw [show pre.length + 1 = (pre ++ [v % 65536 % 256]).length by simp]
      rw [set_append_len]
      simp

theorem setUint32LE_append (pre suf : List Nat) (v : Nat) (h : 4 ≤ suf.length) :
    setUint32LE (pre ++ suf) pre.length v = pre ++ le32 v ++ suf.drop 4 := by
  cases suf with
  | nil => simp at h
  | cons d1 s1 =>
    cases s1 with
    | nil => simp at h
    | cons d2 s2 =>
      cases s2 with
      | nil => simp at h
      | cons d3 s3 =>
        cases s3 with
        | nil => simp at h
        | cons d4 s4 =>
          unfold setUint32LE le32
          rw [set_append_len]
          rw [show pre ++ (v % 4294967296 % 256) :: d2 :: d3 :: d4 :: s4 =
            (pre ++ [v % 4294967296 % 256]) ++ d2 :: d3 :: d4 :: s4 by simp]
          rw [show pre.length + 1 = (pre ++ [v % 4294967296 % 256]).length by simp]
          rw [set_append_len]
          rw [show (pre ++ [v % 4294967296 % 256]) ++
              (v % 4294967296 / 256 % 256) :: d3 :: d4 :: s4 =
            ((pre ++ [v % 4294967296 % 256]) ++ [v % 4294967296 / 256 % 256]) ++
              d3 :: d4 :: s4 by simp]
          rw [show pre.length + 2 =
            ((pre ++ [v % 4294967296 % 256]) ++ [v % 4294967296 / 256 % 256]).length
            by simp]
          rw [set_append_len]
          rw [show ((pre ++ [v % 4294967296 % 256]) ++ [v % 4294967296 / 256 % 256]) ++
              (v % 4294967296 / 65536 % 256) :: d4 :: s4 =
            (((pre ++ [v % 4294967296 % 256]) ++ [v % 4294967296 / 256 % 256]) ++
              [v % 4294967296 / 65536 % 256]) ++ d4 :: s4 by simp]
          rw [show pre.length + 3 =
            (((pre ++ [v % 4294967296 % 256]) ++ [v % 4294967296 / 256 % 256]) ++
              [v % 4294967296 / 65536 % 256]).length by simp]
          rw [set_append_len]
          simp

theorem setInt16LE_append (pre suf : List Nat) (i : Int) (h : 2 ≤ suf.length) :
    setInt16LE (pre ++ suf) pre.length i = pre ++ int16LE i ++ suf.drop 2 := by
  cases suf with
  | nil => simp at h
  | cons d1 s1 =>
    cases s1 with
    | nil => simp at h
    | cons d2 s2 =>
      unfold setInt16LE int16LE
      rw [set_append_len]
      rw [show pre ++ ((i % 65536).toNat % 256) :: d2 :: s2 =
        (pre ++ [(i % 65536).toNat % 256]) ++ d2 :: s2 by simp]
      rw [show pre.length + 1 = (pre ++ [(i % 65536).toNat % 256]).length by simp]
      rw [set_append_len]
      simp

theorem writeSamples_append : ∀ (pcm : List ℚ) (pre suf : List Nat),
    pcm.length * 2 ≤ suf.length →
    writeSamples (pre ++ suf) pre.length pcm =
      pre ++ (pcm.map (fun s => int16LE (sampleToInt16 s))).flatten ++
        suf.drop (pcm.length * 2) := by
  intro pcm
  induction pcm with
  | nil => intro pre suf _; simp [writeSamples]
  | cons s pcm ih =>
    intro pre suf hl
    simp only [List.length_cons] at hl
    simp only [writeSamples]
    rw [setInt16LE_append pre suf _ (by omega)]
    rw [show pre ++ int16LE (sampleToInt16 s) ++ suf.drop 2 =
      (pre ++ int16LE (sampleToInt16 s)) ++ suf.drop 2 by simp]
    rw [show pre.length + 2 = (pre ++ int16LE (sampleToInt16 s)).length by
      simp [int16LE_length]]
    rw [ih (pre ++ int16LE (sampleToInt16 s)) (suf.drop 2)
      (by simp only [List.length_drop]; omega)]
    simp only [List.flatten_cons, List.append_assoc, List.drop_drop, List.map_cons,
      List.length_cons]
    rw [show 2 + pcm.length * 2 = (pcm.length + 1) * 2 by ring]

theorem flatten_int16_length (pcm : List ℚ) :
    ((pcm.map (fun s => int16LE (sampleToInt16 s))).flatten).length =
      pcm.length * 2 := by
  induction pcm with
  | nil => rfl
  | cons s pcm ih =>
    simp only [List.map_cons, List.flatten_cons, List.length_append, ih,
      int16LE_length, List.length_cons]
    ring

theorem sampleToInt16_bounds (s : ℚ) :
    -32768 ≤ sampleToInt16 s ∧ sampleToInt16 s ≤ 32767 := by
  have h1 : (-1 : ℚ) ≤ clampSample s := le_max_left _ _
  have h2 : clampSample s ≤ 1 := max_le (by norm_num) (min_le_left _ _)
  unfold sampleToInt16
  split
  · next hneg =>
    constructor
    · have hm : (-32768 : ℚ) ≤ clampSample s * 32768 := by nlinarith
      have : ((-32768 : Int) : ℚ) ≤ clampSample s * 32768 := by exact_mod_cast hm
      calc (-32768 : Int) = ⌈((-32768 : Int) : ℚ)⌉ := (Int.ceil_intCast _).symm
        _ ≤ ⌈clampSample s * 32768⌉ := Int.ceil_le_ceil this
    · have hm : clampSample s * 32768 ≤ 0 := by nlinarith
      have h3 : ⌈clampSample s * 32768⌉ ≤ 0 :=
        Int.ceil_le.mpr (by exact_mod_cast hm)
      omega
  · next hpos =>
    have hge : (0 : ℚ) ≤ clampSample s := not_lt.mp hpos
    constructor
    · have hm : (0 : ℚ) ≤ clampSample s * 32767 := mul_nonneg hge (by norm_num)
      have h3 : (0 : Int) ≤ ⌊clampSample s * 32767⌋ :=
        Int.le_floor.mpr (by exact_mod_cast hm)
      omega
    · have hm : clampSample s * 32767 ≤ ((32767 : Int) : ℚ) := by
        push_cast
        nlinarith
      calc ⌊clampSample s * 32767⌋ ≤ ⌊((32767 : Int) : ℚ)⌋ := Int.floor_le_floor hm
        _ = 32767 := Int.floor_intCast _

/-! Claim theorems and witnesses. -/

/-- Claim C2, counterexample: `cleanTextForTTS` is not idempotent.  On the
input `[a` LF `](b)` the link regex cannot match across the newline, the
whitespace pass then rewrites the newline to a space, and the second
application removes the now well-formed link, giving the empty string. -/
theorem c2_counterexample :
    cleanTextForTTS ['[', 'a', '\n', ']', '(', 'b', ')'] =
      ['[', 'a', ' ', ']', '(', 'b', ')'] ∧
    cleanTextForTTS (cleanTextForTTS ['[', 'a', '\n', ']', '(', 'b', ')']) = [] ∧
    cleanTextForTTS (cleanTextForTTS ['[', 'a', '\n', ']', '(', 'b', ')']) ≠
      cleanTextForTTS ['[', 'a', '\n', ']', '(', 'b', ')'] := by
  refine ⟨by decide, by decide, by decide⟩

/-- Claim C2, amended: `cleanTextForTTS` is idempotent on every string
that contains no `[` character (the counterexample requires a bracket
whose link only becomes well-formed after whitespace normalization). -/
theorem c2_idempotent_amended (s : List Char) (hs : '[' ∉ s) :
    cleanTextForTTS (cleanTextForTTS s) = cleanTextForTTS s := by
  have e1 : stage1 (cleanTextForTTS s) = cleanTextForTTS s :=
    stage1_eq_self (fun c hc => clean_no_strip hc)
  have e2 : stage2 (cleanTextForTTS s) = cleanTextForTTS s :=
    stage2F_eq_self _ _ le_rfl (fun c hc => clean_no_bracket hs hc)
  have e3 : stage3 (cleanTextForTTS s) = cleanTextForTTS s :=
    stage3F_eq_self _ _ le_rfl (fun c hc hnl => by
      subst hnl
      exact absurd (clean_ws_space hc (by decide)) (by decide))
  have e4 : stage4 (cleanTextForTTS s) = cleanTextForTTS s :=
    stage4F_eq_self _ _ le_rfl (clean_chain_bullet s)
  have e5 : stage5 (cleanTextForTTS s) = cleanTextForTTS s :=
    stage5F_eq_self _ _ le_rfl (fun c hc => clean_ws_space hc) (clean_chain_ws s)
  have e6 : trimChars (cleanTextForTTS s) = cleanTextForTTS s :=
    trim_eq_self (fun c hc => trim_head?_not hc) (fun c hc => trim_getLast?_not hc)
  show trimChars
      (stage5 (stage4 (stage3 (stage2 (stage1 (cleanTextForTTS s)))))) =
    cleanTextForTTS s
  rw [e1, e2, e3, e4, e5, e6]

/-- Witness for C2's amended theorem at the bracket-free input
`a - b` LF LF `c`. -/
theorem c2_idempotent_amended_witness :
    '[' ∉ ['a', ' ', '-', ' ', 'b', '\n', '\n', 'c'] ∧
    cleanTextForTTS (cleanTextForTTS ['a', ' ', '-', ' ', 'b', '\n', '\n', 'c']) =
      cleanTextForTTS ['a', ' ', '-', ' ', 'b', '\n', '\n', 'c'] :=
  ⟨by decide, c2_idempotent_amended _ (by decide)⟩

/-- Claim C3, counterexample: the whitespace-only input, which is
non-empty, yields the empty sequence (everything is filtered out), and
the input space-`a` yields a unit that keeps its leading whitespace. -/
theorem c3_counterexample :
    ([' '] : List Char) ≠ [] ∧ splitIntoSentences [' '] = [] ∧
    splitIntoSentences [' ', 'a'] = [[' ', 'a']] ∧ isWS ' ' = true := by
  refine ⟨by decide, by decide, by decide, by decide⟩

/-- Claim C3, amended: for every input containing at least one
non-whitespace character, `splitIntoSentences` returns a non-empty
ordered sequence of units, each of which contains a non-whitespace
character (is non-empty after trimming); units may retain surrounding
whitespace, and for whitespace-only inputs the result is empty. -/
theorem c3_segment_amended (s : List Char) (h : ∃ c ∈ s, isWS c = false) :
    splitIntoSentences s ≠ [] ∧
    ∀ p ∈ splitIntoSentences s, ∃ c ∈ p, isWS c = false := by
  constructor
  · obtain ⟨c, hc, hws⟩ := h
    obtain ⟨p, hp, c', hc', hws'⟩ :=
      splitAuxF_exists_nonws s.length false [] s ⟨c, Or.inr hc, hws⟩
    have hfilter : p ∈ splitIntoSentences s := by
      rw [splitIntoSentences, List.mem_filter]
      refine ⟨hp, ?_⟩
      simpa [List.length_pos] using trim_nonempty hc' hws'
    exact List.ne_nil_of_mem hfilter
  · intro p hp
    rw [splitIntoSentences, List.mem_filter] at hp
    have h2 : trimChars p ≠ [] := by
      have := hp.2
      simpa [List.length_pos] using this
    exact trim_nonempty_mem h2

/-- Witness for C3's amended theorem on the spec's scenario input. -/
theorem c3_segment_amended_witness :
    (∃ c ∈ ("Hello world. This is a test.".toList), isWS c = false) ∧
    (splitIntoSentences ("Hello world. This is a test.".toList) ≠ [] ∧
     ∀ p ∈ splitIntoSentences ("Hello world. This is a test.".toList),
       ∃ c ∈ p, isWS c = false) :=
  ⟨by decide, c3_segment_amended _ (by decide)⟩

/-- Claim C1, counterexample: a remote failure whose message is exactly
`QUOTA_FULL` carries no quota signal (`includes("quota")` is
case-sensitive and the status is absent), yet `generateTTS` rethrows it
unchanged, so the caller — who recognizes the distinguished error by
`message === 'QUOTA_FULL'` — cannot distinguish it from the real quota
error; "every other failure raises a non-quota error" fails here. -/
theorem c1_counterexample :
    quotaSignal { message := "QUOTA_FULL", status := none } = false ∧
    generateTTS (RemoteOutcome.failure { message := "QUOTA_FULL", status := none }) =
      Except.error { message := "QUOTA_FULL", status := none } :=
  ⟨by decide, rfl⟩

/-- Claim C1, amended: a failure carrying the quota signal (message
containing `quota` or status 429) is raised as the distinguished
`QUOTA_FULL` error; every other failure whose message is not itself the
literal `QUOTA_FULL` is rethrown unchanged, hence with a non-quota
message; a response without audio payload fails with the non-quota
`No audio data received` error. -/
theorem c1_quota_classification (e : JsError) :
    (quotaSignal e = true →
      generateTTS (RemoteOutcome.failure e) =
        Except.error { message := "QUOTA_FULL", status := none }) ∧
    (quotaSignal e = false → e.message ≠ "QUOTA_FULL" →
      generateTTS (RemoteOutcome.failure e) = Except.error e ∧
      e.message ≠ "QUOTA_FULL") ∧
    (generateTTS (RemoteOutcome.success none) =
      Except.error { message := "No audio data received", status := none } ∧
      quotaSignal { message := "No audio data received", status := none } = false) := by
  refine ⟨?_, ?_, ?_, ?_⟩
  · intro h
    simp [generateTTS, generateTTSTry, h]
  · intro h hne
    refine ⟨?_, hne⟩
    simp [generateTTS, generateTTSTry, h]
  · rfl
  · decide

/-- Witness for C1's amended theorem: a genuine quota-message failure maps
to `QUOTA_FULL`, a 429-status failure maps to `QUOTA_FULL`, and an
unrelated failure is rethrown unchanged. -/
theorem c1_quota_classification_witness :
    generateTTS (RemoteOutcome.failure { message := "quota exceeded", status := none }) =
      Except.error { message := "QUOTA_FULL", status := none } ∧
    generateTTS (RemoteOutcome.failure { message := "too many requests", status := some 429 }) =
      Except.error { message := "QUOTA_FULL", status := none } ∧
    generateTTS (RemoteOutcome.failure { message := "network down", status := none }) =
      Except.error { message := "network down", status := none } :=
  ⟨(c1_quota_classification { message := "quota exceeded", status := none }).1 (by decide),
   (c1_quota_classification { message := "too many requests", status := some 429 }).1
     (by decide),
   ((c1_quota_classification { message := "network down", status := none }).2.1
     (by decide) (by decide)).1⟩

/-- Claim C7: a successful `generateTTS` decoding is exactly the 16-bit
little-endian reinterpretation of the decoded bytes scaled by 1/32768,
and every resulting sample lies in [-1, 32767/32768]. -/
theorem c7_decode_range (b64 : List Char) (samples : List ℚ)
    (h : generateTTS (RemoteOutcome.success (some b64)) = Except.ok samples) :
    samples = (bytesToInt16LE (decodeBase64 b64)).map (fun i : Int => (i : ℚ) / 32768) ∧
    ∀ x ∈ samples, -1 ≤ x ∧ x ≤ 32767 / 32768 := by
  by_cases heven : (decodeBase64 b64).length % 2 = 0
  · have htry : generateTTSTry (RemoteOutcome.success (some b64)) =
        Except.ok ((bytesToInt16LE (decodeBase64 b64)).map (fun i : Int => (i : ℚ) / 32768)) := by
      simp [generateTTSTry, heven]
    have hgen : generateTTS (RemoteOutcome.success (some b64)) =
        Except.ok ((bytesToInt16LE (decodeBase64 b64)).map (fun i : Int => (i : ℚ) / 32768)) := by
      simp [generateTTS, htry]
    rw [hgen] at h
    injection h with h'
    have hs : samples =
        (bytesToInt16LE (decodeBase64 b64)).map (fun i : Int => (i : ℚ) / 32768) := h'.symm
    refine ⟨hs, ?_⟩
    intro x hx
    rw [hs] at hx
    obtain ⟨i, hi, rfl⟩ := List.mem_map.mp hx
    obtain ⟨hb1, hb2⟩ := bytesToInt16LE_mem _ i hi
    exact sample_div_bounds hb1 hb2
  · have htry : generateTTSTry (RemoteOutcome.success (some b64)) =
        Except.error int16ViewError := by
      simp [generateTTSTry, heven]
    have hq : quotaSignal int16ViewError = false := by decide
    have hgen : generateTTS (RemoteOutcome.success (some b64)) =
        Except.error int16ViewError := by
      simp [generateTTS, htry, hq]
    rw [hgen] at h
    cases h

/-- Witness for C7 at the two-byte payload 0x00 0x80 (the sample −1). -/
theorem c7_decode_range_witness :
    (bytesToInt16LE (decodeBase64 [Char.ofNat 0, Char.ofNat 128])).map
        (fun i : Int => (i : ℚ) / 32768) =
      (bytesToInt16LE (decodeBase64 [Char.ofNat 0, Char.ofNat 128])).map
        (fun i : Int => (i : ℚ) / 32768) ∧
    ∀ x ∈ (bytesToInt16LE (decodeBase64 [Char.ofNat 0, Char.ofNat 128])).map
        (fun i : Int => (i : ℚ) / 32768), -1 ≤ x ∧ x ≤ 32767 / 32768 :=
  c7_decode_range [Char.ofNat 0, Char.ofNat 128] _ rfl

/-- Claim C10: an odd-length decoded payload makes the `Int16Array` view
construction throw, surfaced as the generic (non-quota) error; an
even-length payload of 2·k bytes yields exactly k samples. -/
theorem c10_int16_view (b64 : List Char) :
    ((decodeBase64 b64).length % 2 = 1 →
      generateTTS (RemoteOutcome.success (some b64)) = Except.error int16ViewError ∧
      quotaSignal int16ViewError = false ∧ int16ViewError.message ≠ "QUOTA_FULL") ∧
    (∀ k, (decodeBase64 b64).length = 2 * k →
      generateTTS (RemoteOutcome.success (some b64)) =
        Except.ok ((bytesToInt16LE (decodeBase64 b64)).map (fun i : Int => (i : ℚ) / 32768)) ∧
      ((bytesToInt16LE (decodeBase64 b64)).map (fun i : Int => (i : ℚ) / 32768)).length = k) := by
  constructor
  · intro hodd
    have hne : ¬((decodeBase64 b64).length % 2 = 0) := by omega
    have h1 : generateTTSTry (RemoteOutcome.success (some b64)) =
        Except.error int16ViewError := by
      simp [generateTTSTry, hne]
    have h2 : quotaSignal int16ViewError = false := by decide
    refine ⟨?_, h2, by decide⟩
    simp [generateTTS, h1, h2]
  · intro k hk
    have heven : (decodeBase64 b64).length % 2 = 0 := by omega
    constructor
    · simp [generateTTS, generateTTSTry, heven]
    · rw [List.length_map, bytesToInt16LE_length, hk]
      omega

/-- Witness for C10: the one-byte payload fails with the generic view
error; the two-byte payload yields exactly one sample. -/
theorem c10_int16_view_witness :
    (generateTTS (RemoteOutcome.success (some [Char.ofNat 0])) =
        Except.error int16ViewError ∧
      quotaSignal int16ViewError = false ∧ int16ViewError.message ≠ "QUOTA_FULL") ∧
    (generateTTS (RemoteOutcome.success (some [Char.ofNat 0, Char.ofNat 128])) =
        Except.ok ((bytesToInt16LE (decodeBase64 [Char.ofNat 0, Char.ofNat 128])).map
          (fun i : Int => (i : ℚ) / 32768)) ∧
      ((bytesToInt16LE (decodeBase64 [Char.ofNat 0, Char.ofNat 128])).map
          (fun i : Int => (i : ℚ) / 32768)).length = 1) :=
  ⟨(c10_int16_view [Char.ofNat 0]).1 (by decide),
   (c10_int16_view [Char.ofNat 0, Char.ofNat 128]).2 1 (by decide)⟩

/-- Claim C4: calling `playBuffer` while a source is loaded (Playing or
Paused) stops the previous source exactly once before the new source is
started, and afterwards the engine holds the new source at the given
rate, is playing, and its context runs.  The `currentSource` slot is a
single `Option` field, so at most one current source ever exists. -/
theorem c4_play_exclusive (st : EngineState) (buf : List ℚ) (rate : ℚ)
    (src : Source) (h : st.currentSource = some src) :
    (playBuffer st buf rate).1.currentSource = some { buffer := buf, rate := rate } ∧
    (playBuffer st buf rate).1.isActuallyPlaying = true ∧
    (playBuffer st buf rate).1.ctxRunning = true ∧
    (playBuffer st buf rate).2 =
      [AudioEvent.stopped src, AudioEvent.started { buffer := buf, rate := rate }] ∧
    (playBuffer st buf rate).2.count (AudioEvent.stopped src) = 1 := by
  have hev : (playBuffer st buf rate).2 =
      [AudioEvent.stopped src, AudioEvent.started { buffer := buf, rate := rate }] := by
    simp [playBuffer, stop, initContext, h]
  refine ⟨by simp [playBuffer, stop, initContext, h],
    by simp [playBuffer, stop, initContext, h],
    by simp [playBuffer, stop, initContext, h], hev, ?_⟩
  rw [hev]
  simp [List.count_cons]

/-- Witness for C4: replacing a loaded empty-buffer source at rate 1 by
the one-sample buffer at rate 2. -/
theorem c4_play_exclusive_witness :
    (playBuffer busyEngine [0] 2).1.currentSource = some { buffer := [0], rate := 2 } ∧
    (playBuffer busyEngine [0] 2).1.isActuallyPlaying = true ∧
    (playBuffer busyEngine [0] 2).1.ctxRunning = true ∧
    (playBuffer busyEngine [0] 2).2 =
      [AudioEvent.stopped oldSource, AudioEvent.started { buffer := [0], rate := 2 }] ∧
    (playBuffer busyEngine [0] 2).2.count (AudioEvent.stopped oldSource) = 1 :=
  c4_play_exclusive busyEngine [0] 2 oldSource rfl

/-- Claim C9: deletion from the library store is idempotent — deleting an
absent identifier leaves the store unchanged, and deleting twice equals
deleting once. -/
theorem c9_delete_idem (store : List LibraryItem) (id : String) :
    ((∀ it ∈ store, it.id ≠ id) → deleteItem store id = store) ∧
    deleteItem (deleteItem store id) id = deleteItem store id := by
  unfold deleteItem
  constructor
  · intro h
    apply List.filter_eq_self.mpr
    intro it hit
    simp [h it hit]
  · apply List.filter_eq_self.mpr
    intro it hit
    exact (List.mem_filter.mp hit).2

/-- Witness for C9 on a one-item store and an absent identifier. -/
theorem c9_delete_idem_witness :
    deleteItem [sampleItem] ("b") =
      [sampleItem] ∧
    deleteItem (deleteItem [sampleItem] ("b")) "b" =
      deleteItem [sampleItem] ("b") :=
  ⟨(c9_delete_idem [sampleItem] ("b")).1 (by intro it hit; simp at hit; subst hit; decide),
   (c9_delete_idem [sampleItem] ("b")).2⟩

/-- Claim C8: when any per-sentence generation call fails, the whole
generation attempt aborts — the library store is returned unchanged (no
item is saved) and the quota or generic message is surfaced. -/
theorem c8_no_partial_save (gen : List Char → Except JsError (List ℚ))
    (store : List LibraryItem) (text : List Char) (title : String)
    (mode : AudioMode) (newId : String) (now : Nat) (e : JsError)
    (h : runGeneration gen (splitIntoSentences text) = Except.error e) :
    (handleGenerate gen store text title mode newId now).1 = store ∧
    (trimChars text ≠ [] →
      (handleGenerate gen store text title mode newId now).2 =
        some (if e.message = "QUOTA_FULL" then ("API Quota Full. Please wait a moment.")
              else ("An error occurred during generation."))) := by
  unfold handleGenerate
  by_cases ht : trimChars text = []
  · rw [if_pos ht]
    exact ⟨rfl, fun hc => absurd ht hc⟩
  · rw [if_neg ht, h]
    exact ⟨rfl, fun _ => rfl⟩

/-- Witness for C8: a generator that always fails leaves a one-item store
unchanged and surfaces the generic message. -/
theorem c8_no_partial_save_witness :
    (handleGenerate (fun _ => Except.error { message := "boom", status := none })
      [sampleItem]
      ("Hi.".toList) ("t") AudioMode.STUDY ("id") 0).1 =
      [sampleItem] ∧
    (handleGenerate (fun _ => Except.error { message := "boom", status := none })
      [sampleItem]
      ("Hi.".toList) ("t") AudioMode.STUDY ("id") 0).2 =
      some ("An error occurred during generation.") := by
  have h := c8_no_partial_save
    (fun _ => Except.error { message := "boom", status := none })
    [sampleItem]
    ("Hi.".toList) ("t") AudioMode.STUDY ("id") 0
    { message := "boom", status := none } rfl
  refine ⟨h.1, ?_⟩
  rw [h.2 (by decide), if_neg (by decide)]

/-- Claim C6: for a generation run whose per-sentence calls all succeed,
the Final Sample Buffer is exactly the concatenation of the per-sentence
chunks in sentence order (no reordering, no gaps), its length is the sum
of the chunk lengths, there are as many chunks as sentences, and chunk i
is precisely what the generator returned for sentence i. -/
theorem c6_final_buffer_concat (gen : List Char → Except JsError (List ℚ))
    (sentences : List (List Char)) (chunks : List (List ℚ))
    (h : runGeneration gen sentences = Except.ok chunks) :
    finalPCM chunks = chunks.flatten ∧
    (finalPCM chunks).length = (chunks.map List.length).sum ∧
    chunks.length = sentences.length ∧
    List.Forall₂ (fun s c => gen s = Except.ok c) sentences chunks := by
  have hf := finalPCM_eq_flatten chunks
  have hfa := runGeneration_ok_forall gen sentences chunks h
  refine ⟨hf, ?_, ?_, hfa⟩
  · rw [hf, List.length_flatten]
  · exact hfa.length_eq.symm

/-- Witness for C6 on two sentences with one- and two-sample chunks. -/
theorem c6_final_buffer_concat_witness :
    finalPCM [[(1 : ℚ)], [2, 3]] = ([[(1 : ℚ)], [2, 3]] : List (List ℚ)).flatten ∧
    (finalPCM [[(1 : ℚ)], [2, 3]]).length =
      (([[(1 : ℚ)], [2, 3]] : List (List ℚ)).map List.length).sum ∧
    ([[(1 : ℚ)], [2, 3]] : List (List ℚ)).length = [['a'], ['b']].length ∧
    List.Forall₂ (fun s c => chunkGen s = Except.ok c)
      [['a'], ['b']] [[(1 : ℚ)], [2, 3]] :=
  c6_final_buffer_concat chunkGen [['a'], ['b']] [[(1 : ℚ)], [2, 3]] rfl

/-- Claim C5: `pcmToWav` is total and produces exactly the specified byte
layout — the 44-byte RIFF/WAVE/fmt/data header with PCM format code 1,
one channel, the given sample rate, byte rate = sample rate × 2, block
align 2, 16 bits per sample and data size 2·n, followed by the clamped,
asymmetrically scaled 16-bit samples little-endian; each scaled sample
fits the signed 16-bit range. -/
theorem c5_pcmToWav_layout (pcmData : List ℚ) (sampleRate : Nat)
    (_hne : pcmData ≠ []) :
    pcmToWav pcmData sampleRate =
      wavHeaderSpec pcmData.length sampleRate ++
        (pcmData.map (fun s => int16LE (sampleToInt16 s))).flatten ∧
    (pcmToWav pcmData sampleRate).length = 44 + pcmData.length * 2 ∧
    ∀ s ∈ pcmData, -32768 ≤ sampleToInt16 s ∧ sampleToInt16 s ≤ 32767 := by
  have hmain : pcmToWav pcmData sampleRate =
      wavHeaderSpec pcmData.length sampleRate ++
        (pcmData.map (fun s => int16LE (sampleToInt16 s))).flatten := by
    simp only [pcmToWav]
    have e1 :
        writeString (List.replicate (44 + pcmData.length * 2) 0) 0 ['R', 'I', 'F', 'F'] =
        [82, 73, 70, 70] ++
        List.replicate (40 + pcmData.length * 2) 0 := by
      have h := writeString_append ['R', 'I', 'F', 'F']
        ([] : List Nat)
        (List.replicate (44 + pcmData.length * 2) 0)
        (by simp only [List.length_replicate, List.length_cons, List.length_nil]; omega)
      simpa [le16_length, le32_length, List.drop_replicate,
        show 44 + pcmData.length * 2 - 4 = 40 + pcmData.length * 2 by omega,
        show List.map (fun c => c.toNat % 256) ['R', 'I', 'F', 'F'] = [82, 73, 70, 70] by decide] using h
    have e2 :
        setUint32LE ([82, 73, 70, 70] ++
        List.replicate (40 + pcmData.length * 2) 0) 4 (36 + pcmData.length * 2) =
        [82, 73, 70, 70] ++
        le32 (36 + pcmData.length * 2) ++
        List.replicate (36 + pcmData.length * 2) 0 := by
      have h := setUint32LE_append ([82, 73, 70, 70])
        (List.replicate (40 + pcmData.length * 2) 0) (36 + pcmData.length * 2)
        (by simp only [List.length_replicate, List.length_cons, List.length_nil]; omega)
      simpa [le16_length, le32_length, List.drop_replicate,
        show 40 + pcmData.length * 2 - 4 = 36 + pcmData.length * 2 by omega] using h
    have e3 :
        writeString ([82, 73, 70, 70] ++
        le32 (36 + pcmData.length * 2) ++
        List.replicate (36 + pcmData.length * 2) 0) 8 ['W', 'A', 'V', 'E'] =
        [82, 73, 70, 70] ++
        le32 (36 + pcmData.length * 2) ++
        [87, 65, 86, 69] ++
        List.replicate (32 + pcmData.length * 2) 0 := by
      have h := writeString_append ['W', 'A', 'V', 'E']
        ([82, 73, 70, 70] ++ le32 (36 + pcmData.length * 2))
        (List.replicate (36 + pcmData.length * 2) 0)
        (by simp only [List.length_replicate, List.length_cons, List.length_nil]; omega)
      simpa [le16_length, le32_length, List.drop_replicate,
        show 36 + pcmData.length * 2 - 4 = 32 + pcmData.length * 2 by omega,
        show List.map (fun c => c.toNat % 256) ['W', 'A', 'V', 'E'] = [87, 65, 86, 69] by decide] using h
    have e4 :
        writeString ([82, 73, 70, 70] ++
        le32 (36 + pcmData.length * 2) ++
        [87, 65, 86, 69] ++
        List.replicate (32 + pcmData.length * 2) 0) 12 ['f', 'm', 't', ' '] =
        [82, 73, 70, 70] ++
        le32 (36 + pcmData.length * 2) ++
        [87, 65, 86, 69] ++
        [102, 109, 116, 32] ++
        List.replicate (28 + pcmData.length * 2) 0 := by
      have h := writeString_append ['f', 'm', 't', ' ']
        ([82, 73, 70, 70] ++ le32 (36 + pcmData.length * 2) ++ [87, 65, 86, 69])
        (List.replicate (32 + pcmData.length * 2) 0)
        (by simp only [List.length_replicate, List.length_cons, List.length_nil]; omega)
      simpa [le16_length, le32_length, List.drop_replicate,
        show 32 + pcmData.length * 2 - 4 = 28 + pcmData.length * 2 by omega,
        show List.map (fun c => c.toNat % 256) ['f', 'm', 't', ' '] = [102, 109, 116, 32] by decide] using h
    have e5 :
        setUint32LE ([82, 73, 70, 70] ++
        le32 (36 + pcmData.length * 2) ++
        [87, 65, 86, 69] ++
        [102, 109, 116, 32] ++
        List.replicate (28 + pcmData.length * 2) 0) 16 16 =
        [82, 73, 70, 70] ++
        le32 (36 + pcmData.length * 2) ++
        [87, 65, 86, 69] ++
        [102, 109, 116, 32] ++
        le32 16 ++
        List.replicate (24 + pcmData.length * 2) 0 := by
      have h := setUint32LE_append ([82, 73, 70, 70] ++ le32 (36 + pcmData.length * 2) ++ [87, 65, 86, 69] ++ [102, 109, 116, 32])
        (List.replicate (28 + pcmData.length * 2) 0) 16
        (by simp only [List.length_replicate, List.length_cons, List.length_nil]; omega)
      simpa [le16_length, le32_length, List.drop_replicate,
        show 28 + pcmData.length * 2 - 4 = 24 + pcmData.length * 2 by omega] using h
    have e6 :
        setUint16LE ([82, 73, 70, 70] ++
        le32 (36 + pcmData.length * 2) ++
        [87, 65, 86, 69] ++
        [102, 109, 116, 32] ++
        le32 16 ++
        List.replicate (24 + pcmData.length * 2) 0) 20 1 =
        [82, 73, 70, 70] ++
        le32 (36 + pcmData.length * 2) ++
        [87, 65, 86, 69] ++
        [102, 109, 116, 32] ++
        le32 16 ++
        le16 1 ++
        List.replicate (22 + pcmData.length * 2) 0 := by
      have h := setUint16LE_append ([82, 73, 70, 70] ++ le32 (36 + pcmData.length * 2) ++ [87, 65, 86, 69] ++ [102, 109, 116, 32] ++ le32 16)
        (List.replicate (24 + pcmData.length * 2) 0) 1
        (by simp only [List.length_replicate, List.length_cons, List.length_nil]; omega)
      simpa [le16_length, le32_length, List.drop_replicate,
        show 24 + pcmData.length * 2 - 2 = 22 + pcmData.length * 2 by omega] using h
    have e7 :
        setUint16LE ([82, 73, 70, 70] ++
        le32 (36 + pcmData.length * 2) ++
        [87, 65, 86, 69] ++
        [102, 109, 116, 32] ++
        le32 16 ++
        le16 1 ++
        List.replicate (22 + pcmData.length * 2) 0) 22 1 =
        [82, 73, 70, 70] ++
        le32 (36 + pcmData.length * 2) ++
        [87, 65, 86, 69] ++
        [102, 109, 116, 32] ++
        le32 16 ++
        le16 1 ++
        le16 1 ++
        List.replicate (20 + pcmData.length * 2) 0 := by
      have h := setUint16LE_append ([82, 73, 70, 70] ++ le32 (36 + pcmData.length * 2) ++ [87, 65, 86, 69] ++ [102, 109, 116, 32] ++ le32 16 ++ le16 1)
        (List.replicate (22 + pcmData.length * 2) 0) 1
        (by simp only [List.length_replicate, List.length_cons, List.length_nil]; omega)
      simpa [le16_length, le32_length, List.drop_replicate,
        show 22 + pcmData.length * 2 - 2 = 20 + pcmData.length * 2 by omega] using h
    have e8 :
        setUint32LE ([82, 73, 70, 70] ++
        le32 (36 + pcmData.length * 2) ++
        [87, 65, 86, 69] ++
        [102, 109, 116, 32] ++
        le32 16 ++
        le16 1 ++
        le16 1 ++
        List.replicate (20 + pcmData.length * 2) 0) 24 sampleRate =
        [82, 73, 70, 70] ++
        le32 (36 + pcmData.length * 2) ++
        [87, 65, 86, 69] ++
        [102, 109, 116, 32] ++
        le32 16 ++
        le16 1 ++
        le16 1 ++
        le32 sampleRate ++
        List.replicate (16 + pcmData.length * 2) 0 := by
      have h := setUint32LE_append ([82, 73, 70, 70] ++ le32 (36 + pcmData.length * 2) ++ [87, 65, 86, 69] ++ [102, 109, 116, 32] ++ le32 16 ++ le16 1 ++ le16 1)
        (List.replicate (20 + pcmData.length * 2) 0) sampleRate
        (by simp only [List.length_replicate, List.length_cons, List.length_nil]; omega)
      simpa [le16_length, le32_length, List.drop_replicate,
        show 20 + pcmData.length * 2 - 4 = 16 + pcmData.length * 2 by omega] using h
    have e9 :
        setUint32LE ([82, 73, 70, 70] ++
        le32 (36 + pcmData.length * 2) ++
        [87, 65, 86, 69] ++
        [102, 109, 116, 32] ++
        le32 16 ++
        le16 1 ++
        le16 1 ++
        le32 sampleRate ++
        List.replicate (16 + pcmData.length * 2) 0) 28 (sampleRate * 2) =
        [82, 73, 70, 70] ++
        le32 (36 + pcmData.length * 2) ++
        [87, 65, 86, 69] ++
        [102, 109, 116, 32] ++
        le32 16 ++
        le16 1 ++
        le16 1 ++
        le32 sampleRate ++
        le32 (sampleRate * 2) ++
        List.replicate (12 + pcmData.length * 2) 0 := by
      have h := setUint32LE_append ([82, 73, 70, 70] ++ le32 (36 + pcmData.length * 2) ++ [87, 65, 86, 69] ++ [102, 109, 116, 32] ++ le32 16 ++ le16 1 ++ le16 1 ++ le32 sampleRate)
        (List.replicate (16 + pcmData.length * 2) 0) (sampleRate * 2)
        (by simp only [List.length_replicate, List.length_cons, List.length_nil]; omega)
      simpa [le16_length, le32_length, List.drop_replicate,
        show 16 + pcmData.length * 2 - 4 = 12 + pcmData.length * 2 by omega] using h
    have e10 :
        setUint16LE ([82, 73, 70, 70] ++
        le32 (36 + pcmData.length * 2) ++
        [87, 65, 86, 69] ++
        [102, 109, 116, 32] ++
        le32 16 ++
        le16 1 ++
        le16 1 ++
        le32 sampleRate ++
        le32 (sampleRate * 2) ++
        List.replicate (12 + pcmData.length * 2) 0) 32 2 =
        [82, 73, 70, 70] ++
        le32 (36 + pcmData.length * 2) ++
        [87, 65, 86, 69] ++
        [102, 109, 116, 32] ++
        le32 16 ++
        le16 1 ++
        le16 1 ++
        le32 sampleRate ++
        le32 (sampleRate * 2) ++
        le16 2 ++
        List.replicate (10 + pcmData.length * 2) 0 := by
      have h := setUint16LE_append ([82, 73, 70, 70] ++ le32 (36 + pcmData.length * 2) ++ [87, 65, 86, 69] ++ [102, 109, 116, 32] ++ le32 16 ++ le16 1 ++ le16 1 ++ le32 sampleRate ++ le32 (sampleRate * 2))
        (List.replicate (12 + pcmData.length * 2) 0) 2
        (by simp only [List.length_replicate, List.length_cons, List.length_nil]; omega)
      simpa [le16_length, le32_length, List.drop_replicate,
        show 12 + pcmData.length * 2 - 2 = 10 + pcmData.length * 2 by omega] using h
    have e11 :
        setUint16LE ([82, 73, 70, 70] ++
        le32 (36 + pcmData.length * 2) ++
        [87, 65, 86, 69] ++
        [102, 109, 116, 32] ++
        le32 16 ++
        le16 1 ++
        le16 1 ++
        le32 sampleRate ++
        le32 (sampleRate * 2) ++
        le16 2 ++
        List.replicate (10 + pcmData.length * 2) 0) 34 16 =
        [82, 73, 70, 70] ++
        le32 (36 + pcmData.length * 2) ++
        [87, 65, 86, 69] ++
        [102, 109, 116, 32] ++
        le32 16 ++
        le16 1 ++
        le16 1 ++
        le32 sampleRate ++
        le32 (sampleRate * 2) ++
        le16 2 ++
        le16 16 ++
        List.replicate (8 + pcmData.length * 2) 0 := by
      have h := setUint16LE_append ([82, 73, 70, 70] ++ le32 (36 + pcmData.length * 2) ++ [87, 65, 86, 69] ++ [102, 109, 116, 32] ++ le32 16 ++ le16 1 ++ le16 1 ++ le32 sampleRate ++ le32 (sampleRate * 2) ++ le16 2)
        (List.replicate (10 + pcmData.length * 2) 0) 16
        (by simp only [List.length_replicate, List.length_cons, List.length_nil]; omega)
      simpa [le16_length, le32_length, List.drop_replicate,
        show 10 + pcmData.length * 2 - 2 = 8 + pcmData.length * 2 by omega] using h
    have e12 :
        writeString ([82, 73, 70, 70] ++
        le32 (36 + pcmData.length * 2) ++
        [87, 65, 86, 69] ++
        [102, 109, 116, 32] ++
        le32 16 ++
        le16 1 ++
        le16 1 ++
        le32 sampleRate ++
        le32 (sampleRate * 2) ++
        le16 2 ++
        le16 16 ++
        List.replicate (8 + pcmData.length * 2) 0) 36 ['d', 'a', 't', 'a'] =
        [82, 73, 70, 70] ++
        le32 (36 + pcmData.length * 2) ++
        [87, 65, 86, 69] ++
        [102, 109, 116, 32] ++
        le32 16 ++
        le16 1 ++
        le16 1 ++
        le32 sampleRate ++
        le32 (sampleRate * 2) ++
        le16 2 ++
        le16 16 ++
        [100, 97, 116, 97] ++
        List.replicate (4 + pcmData.length * 2) 0 := by
      have h := writeString_append ['d', 'a', 't', 'a']
        ([82, 73, 70, 70] ++ le32 (36 + pcmData.length * 2) ++ [87, 65, 86, 69] ++ [102, 109, 116, 32] ++ le32 16 ++ le16 1 ++ le16 1 ++ le32 sampleRate ++ le32 (sampleRate * 2) ++ le16 2 ++ le16 16)
        (List.replicate (8 + pcmData.length * 2) 0)
        (by simp only [List.length_replicate, List.length_cons, List.length_nil]; omega)
      simpa [le16_length, le32_length, List.drop_replicate,
        show 8 + pcmData.length * 2 - 4 = 4 + pcmData.length * 2 by omega,
        show List.map (fun c => c.toNat % 256) ['d', 'a', 't', 'a'] = [100, 97, 116, 97] by decide] using h
    have e13 :
        setUint32LE ([82, 73, 70, 70] ++
        le32 (36 + pcmData.length * 2) ++
        [87, 65, 86, 69] ++
        [102, 109, 116, 32] ++
        le32 16 ++
        le16 1 ++
        le16 1 ++
        le32 sampleRate ++
        le32 (sampleRate * 2) ++
        le16 2 ++
        le16 16 ++
        [100, 97, 116, 97] ++
        List.replicate (4 + pcmData.length * 2) 0) 40 (pcmData.length * 2) =
        [82, 73, 70, 70] ++
        le32 (36 + pcmData.length * 2) ++
        [87, 65, 86, 69] ++
        [102, 109, 116, 32] ++
        le32 16 ++
        le16 1 ++
        le16 1 ++
        le32 sampleRate ++
        le32 (sampleRate * 2) ++
        le16 2 ++
        le16 16 ++
        [100, 97, 116, 97] ++
        le32 (pcmData.length * 2) ++
        List.replicate (pcmData.length * 2) 0 := by
      have h := setUint32LE_append ([82, 73, 70, 70] ++ le32 (36 + pcmData.length * 2) ++ [87, 65, 86, 69] ++ [102, 109, 116, 32] ++ le32 16 ++ le16 1 ++ le16 1 ++ le32 sampleRate ++ le32 (sampleRate * 2) ++ le16 2 ++ le16 16 ++ [100, 97, 116, 97])
        (List.replicate (4 + pcmData.length * 2) 0) (pcmData.length * 2)
        (by simp only [List.length_replicate, List.length_cons, List.length_nil]; omega)
      simpa [le16_length, le32_length, List.drop_replicate,
        show 4 + pcmData.length * 2 - 4 = pcmData.length * 2 by omega] using h
    have e14 :
        writeSamples ([82, 73, 70, 70] ++
        le32 (36 + pcmData.length * 2) ++
        [87, 65, 86, 69] ++
        [102, 109, 116, 32] ++
        le32 16 ++
        le16 1 ++
        le16 1 ++
        le32 sampleRate ++
        le32 (sampleRate * 2) ++
        le16 2 ++
        le16 16 ++
        [100, 97, 116, 97] ++
        le32 (pcmData.length * 2) ++
        List.replicate (pcmData.length * 2) 0) 44 pcmData =
        [82, 73, 70, 70] ++
        le32 (36 + pcmData.length * 2) ++
        [87, 65, 86, 69] ++
        [102, 109, 116, 32] ++
        le32 16 ++
        le16 1 ++
        le16 1 ++
        le32 sampleRate ++
        le32 (sampleRate * 2) ++
        le16 2 ++
        le16 16 ++
        [100, 97, 116, 97] ++
        le32 (pcmData.length * 2) ++
        (pcmData.map (fun s => int16LE (sampleToInt16 s))).flatten := by
      have h := writeSamples_append pcmData
        ([82, 73, 70, 70] ++ le32 (36 + pcmData.length * 2) ++ [87, 65, 86, 69] ++ [102, 109, 116, 32] ++ le32 16 ++ le16 1 ++ le16 1 ++ le32 sampleRate ++ le32 (sampleRate * 2) ++ le16 2 ++ le16 16 ++ [100, 97, 116, 97] ++ le32 (pcmData.length * 2))
        (List.replicate (pcmData.length * 2) 0) (by simp only [List.length_replicate, List.length_cons, List.length_nil]; omega)
      simpa [le16_length, le32_length, List.drop_replicate, Nat.sub_self] using h
    rw [e1, e2, e3, e4, e5, e6, e7, e8, e9, e10, e11, e12, e13, e14]
    simp [wavHeaderSpec]
  refine ⟨hmain, ?_, fun s _ => sampleToInt16_bounds s⟩
  rw [hmain, List.length_append, flatten_int16_length]
  simp [wavHeaderSpec, le16_length, le32_length]

/-- Witness for C5 at the one-sample buffer [1] and rate 24000. -/
theorem c5_pcmToWav_layout_witness :
    pcmToWav [(1 : ℚ)] 24000 =
      wavHeaderSpec [(1 : ℚ)].length 24000 ++
        ([(1 : ℚ)].map (fun s => int16LE (sampleToInt16 s))).flatten ∧
    (pcmToWav [(1 : ℚ)] 24000).length = 44 + [(1 : ℚ)].length * 2 ∧
    ∀ s ∈ [(1 : ℚ)], -32768 ≤ sampleToInt16 s ∧ sampleToInt16 s ≤ 32767 :=
  c5_pcmToWav_layout [(1 : ℚ)] 24000 (List.cons_ne_nil 1 [])
